import Mathlib

/-!
Verification development for the Smart Process Analyzer repository
(`app/parsers/unix_parser.py`, `app/parsers/windows_parser.py`,
`app/services/data_organizer.py`, `app/services/query_engine.py`).

The Python sources are shallowly embedded below: pure functions become Lean
functions, floats become rationals, raised exceptions become `Except` errors,
and the Redis / staging stores become explicit key-value maps.
-/

namespace SPA

/-! ## Python string primitives

All character-level work happens on `List Char` (a string's underlying
character list), which the kernel evaluates on literals. -/

/-- Python `str.strip()`: drop leading and trailing whitespace. -/
def trimChars (cs : List Char) : List Char :=
  ((cs.dropWhile Char.isWhitespace).reverse.dropWhile Char.isWhitespace).reverse

/-- Split a character list at every occurrence of `sep` (Python
`str.split(sep)`, which yields `['']` on the empty string and keeps empty
chunks). -/
def splitOnChar (sep : Char) : List Char → List (List Char)
  | [] => [[]]
  | c :: cs =>
    let r := splitOnChar sep cs
    if c = sep then [] :: r
    else
      match r with
      | [] => [[c]]
      | h :: t => (c :: h) :: t

/-- Chunks of a character list delimited by characters satisfying `p`
(empty chunks included). -/
def splitPredChars (p : Char → Bool) : List Char → List (List Char)
  | [] => [[]]
  | c :: cs =>
    let r := splitPredChars p cs
    if p c then [] :: r
    else
      match r with
      | [] => [[c]]
      | h :: t => (c :: h) :: t

/-- Python `str.split('\n')`. -/
def pySplitNl (s : String) : List String := (splitOnChar '\n' s.data).map String.mk

/-- Python `str.splitlines()` (restricted to `'\n'` line terminators, the only
ones appearing in the inputs considered here). -/
def pySplitlines (s : String) : List String :=
  if s.data = [] then []
  else
    let parts := splitOnChar '\n' s.data
    (if s.data.getLast? = some '\n' then parts.dropLast else parts).map String.mk

/-- Python `re.split(r'\s+', s.strip())`: after stripping, split on maximal
whitespace runs.  On the empty string the regex split yields `[""]`. -/
def pyReSplitWs (s : String) : List String :=
  let t := trimChars s.data
  if t = [] then [""]
  else (((splitPredChars Char.isWhitespace t).filter (fun x => x ≠ [])).map String.mk)

/-- Python `str.split()` (no separator): split on whitespace runs, dropping
empty tokens; whitespace-only input yields `[]`. -/
def pySplitNoSep (s : String) : List String :=
  ((splitPredChars Char.isWhitespace s.data).filter (fun x => x ≠ [])).map String.mk

/-- Value of a non-empty list of decimal digit characters. -/
def digitsVal (ds : List Char) : Nat :=
  ds.foldl (fun n c => n * 10 + (c.toNat - 48)) 0

/-- Python `int(s)` (restricted to an optional sign followed by decimal
digits, the grammar exercised by the listings under consideration).
`none` models a raised `ValueError`. -/
def pyInt? (s : String) : Option Int :=
  match trimChars s.data with
  | '-' :: ds => if ds ≠ [] ∧ ds.all Char.isDigit then some (-(digitsVal ds : Int)) else none
  | '+' :: ds => if ds ≠ [] ∧ ds.all Char.isDigit then some (digitsVal ds : Int) else none
  | ds => if ds ≠ [] ∧ ds.all Char.isDigit then some (digitsVal ds : Int) else none

/-- Unsigned decimal literal `intpart[.fracpart]` as a rational. -/
def pyFloatBody? (t : List Char) : Option ℚ :=
  match splitOnChar '.' t with
  | [i] =>
    if i ≠ [] ∧ i.all Char.isDigit then some (digitsVal i : ℚ) else none
  | [i, f] =>
    if (i ≠ [] ∨ f ≠ []) ∧ i.all Char.isDigit ∧ f.all Char.isDigit then
      some ((digitsVal i : ℚ) + (digitsVal f : ℚ) / ((10 : ℚ) ^ f.length))
    else none
  | _ => none

/-- Python `float(s)` (restricted to optionally signed decimal literals, the
grammar exercised by the listings under consideration).  `none` models a
raised `ValueError`. -/
def pyFloat? (s : String) : Option ℚ :=
  match trimChars s.data with
  | '-' :: ds => (pyFloatBody? ds).map (fun q => -q)
  | '+' :: ds => pyFloatBody? ds
  | ds => pyFloatBody? ds

/-- Zero-padded decimal rendering, as produced by `strftime` field formats
and by `str(datetime.date)`. -/
def padZeros (w : Nat) (n : Nat) : String :=
  let s := toString n
  String.mk (List.replicate (w - s.length) '0') ++ s

/-- Python slice `s[a:b]` for character indices `a ≤ b` (out-of-range indices
clamp, as in Python). -/
def pySlice (s : String) (a b : Nat) : String :=
  String.mk ((s.data.drop a).take (b - a))

/-- Python slice `s[a:]`. -/
def pySliceFrom (s : String) (a : Nat) : String :=
  String.mk (s.data.drop a)

/-- `s.replace(c, '')` for each character in `cs`: removes every occurrence. -/
def removeChars (s : String) (cs : List Char) : String :=
  String.mk (s.data.filter (fun c => ¬ c ∈ cs))

/-! ## Key-value stores (Redis staging store and rollup store) -/

/-- A keyed store (Redis): a partial map from string keys to values. -/
def Store (α : Type) : Type := String → Option α

/-- `redis.set`: overwrites whatever was previously stored under `k`. -/
def kvSet {α : Type} (s : Store α) (k : String) (v : α) : Store α :=
  fun k' => if k' = k then some v else s k'

/-- The empty store. -/
def kvEmpty {α : Type} : Store α := fun _ => none

/-! ## Canonical process records (`app/models.py` / parser output) -/

/-- The parser-produced portion of a `ProcessData` row (`app/models.py`);
batch metadata fields are merged in later, during materialization. -/
structure ProcessData where
  user : String
  command : String
  tty : String
  stat : String
  start_time : String
  duration : String
  pid : Int
  vsz : Int
  rss : Int
  cpu_usage : ℚ
  mem_usage : ℚ
deriving DecidableEq, Repr

/-- Errors escaping a `parse` call.  `formatError` is the
`HTTPException(status_code=400, detail="psaux Content is invalid.")` the spec
calls `FormatError`; `pyError` is an uncaught Python exception
(`IndexError` / `ValueError`). -/
inductive ParseErr where
  | formatError
  | pyError
deriving DecidableEq, Repr

deriving instance DecidableEq for Except

/-! ## Unix parser (`app/parsers/unix_parser.py`) -/

/-- One iteration of the `for line in lines` loop of `UnixParser.parse`:
split on whitespace runs, require exactly 11 fields
(`len(UnixPsFields.__members__) == 11`), convert the numeric fields, and
rejoin fields from position 10 on into `command`. -/
def parseUnixLine (line : String) : Except ParseErr ProcessData :=
  let fields := pyReSplitWs line
  if fields.length = 11 then
    match pyInt? (fields.getD 1 ""), pyFloat? (fields.getD 2 ""), pyFloat? (fields.getD 3 ""),
        pyInt? (fields.getD 4 ""), pyInt? (fields.getD 5 "") with
    | some pid, some cpu, some mem, some vsz, some rss =>
      .ok { user := fields.getD 0 "", pid := pid, cpu_usage := cpu, mem_usage := mem,
            vsz := vsz, rss := rss, tty := fields.getD 6 "", stat := fields.getD 7 "",
            start_time := fields.getD 8 "", duration := fields.getD 9 "",
            command := String.mk (List.intercalate [' '] ((fields.drop 10).map String.data)) }
    | _, _, _, _, _ => .error .formatError
  else .error .formatError

/-- `UnixParser.parse`: drops the first line of the stripped content
(`content.strip().split('\n')[1:]`, commented `# Skip the header` in the
source), requires the remaining list to be non-empty, requires its FIRST
element (`header = lines[0]`, i.e. the second line of the original content)
to start with `"USER"`, then parses every remaining line — including that
checked line — as a data line, failing wholesale on the first bad line. -/
def unixParse (content : String) : Except ParseErr (List ProcessData) :=
  let lines := ((splitOnChar '\n' (trimChars content.data)).map String.mk).drop 1
  match lines with
  | [] => .error .formatError
  | header :: _ =>
    if "USER".data.isPrefixOf header.data then lines.mapM parseUnixLine
    else .error .formatError

/-! ## Windows parser (`app/parsers/windows_parser.py`) -/

/-- Starting offsets of each maximal run of `'='` in the separator line. -/
def eqRunStartsAux : List Char → Option Char → Nat → List Nat
  | [], _, _ => []
  | c :: cs, prev, i =>
    (if c = '=' ∧ prev ≠ some '=' then [i] else []) ++ eqRunStartsAux cs (some c) (i + 1)

/-- Column positions derived from the `'='` separator line. -/
def eqRunStarts (s : String) : List Nat := eqRunStartsAux s.data none 0

/-- One iteration of the data-line loop of `WindowsParser.parse`: slice the
line at the column positions, take the first whitespace token of the final
slice, parse `Mem Usage` leniently (defaulting to `0.0`), and `PID` strictly
(an uncaught `ValueError` on failure).  Missing columns or an empty final
slice raise an uncaught `IndexError` (`pyError`), not the 400 `formatError`. -/
def parseWindowsLine (colPos : List Nat) (line : String) : Except ParseErr ProcessData :=
  match colPos.getLast? with
  | none => .error .pyError
  | some last =>
    let heads := (colPos.zip (colPos.drop 1)).map (fun ab => String.mk (trimChars (pySlice line ab.1 ab.2).data))
    match pySplitNoSep (pySliceFrom line last) with
    | [] => .error .pyError
    | tok :: _ =>
      let fields := heads ++ [tok]
      if 5 ≤ fields.length then
        let memVal : ℚ := (pyFloat? (removeChars (fields.getD 4 "") [',', 'K'])).getD 0
        match pyInt? (fields.getD 1 "") with
        | none => .error .pyError
        | some pid =>
          .ok { user := "N/A", pid := pid, cpu_usage := 0, mem_usage := memVal,
                vsz := 0, rss := 0, tty := fields.getD 2 "", stat := "N/A",
                start_time := "N/A", duration := "N/A", command := fields.getD 0 "" }
      else .error .pyError

/-- `WindowsParser.parse`: find the first line whose trimmed form starts with
`'='` (defaulting to index 0 when none does), derive column positions from
it, and slice every subsequent line. -/
def windowsParse (content : String) : Except ParseErr (List ProcessData) :=
  let lines := pySplitlines content
  let sepIdx := (lines.findIdx? (fun l => ['='].isPrefixOf (trimChars l.data))).getD 0
  match lines.get? sepIdx with
  | none => .error .pyError
  | some separator =>
    let colPos := eqRunStarts separator
    (lines.drop (sepIdx + 1)).mapM (parseWindowsLine colPos)

/-! ## Ingestion staging (`DataOrganizer.store_process_data_in_redis`) -/

/-- Batch metadata supplied by the caller at ingest time. -/
structure MetaInfo where
  timestamp : String
  machine_name : String
  machine_id : String
  os_type : String
deriving DecidableEq, Repr

/-- The staged batch envelope written to the staging store. -/
structure StagedBatch where
  meta_info : MetaInfo
  process_data : List ProcessData
deriving DecidableEq, Repr

/-- A wall-clock instant as observed by `pd.Timestamp.now()`; `micro` is the
sub-second component, which `strftime('%Y%m%d%H%M%S')` discards. -/
structure PyTimestamp where
  year : Nat
  month : Nat
  day : Nat
  hour : Nat
  minute : Nat
  second : Nat
  micro : Nat
deriving DecidableEq, Repr

/-- `pd.Timestamp.now().strftime('%Y%m%d%H%M%S')`: second resolution only. -/
def strftimeYmdHms (t : PyTimestamp) : String :=
  padZeros 4 t.year ++ padZeros 2 t.month ++ padZeros 2 t.day ++
    padZeros 2 t.hour ++ padZeros 2 t.minute ++ padZeros 2 t.second

/-- `DataOrganizer.store_process_data_in_redis`: derives the batch id from
the current wall-clock second alone (`batch_{now:%Y%m%d%H%M%S}`), writes the
staged envelope under that key with `redis_client.set`, and returns the id
and record count. -/
def storeProcessDataInRedis (staging : Store StagedBatch) (now : PyTimestamp)
    (meta : MetaInfo) (processDataList : List ProcessData) :
    Store StagedBatch × String × Nat :=
  let batchId := "batch_" ++ strftimeYmdHms now
  (kvSet staging batchId ⟨meta, processDataList⟩, batchId, processDataList.length)

/-! ## Aggregate rollups (`DataOrganizer._update_redis_aggregations`) -/

/-- A row of the materialization DataFrame restricted to the columns that
`_update_redis_aggregations` reads (`command`, `cpu_usage`, `mem_usage`,
`partition_key`); `partition_key` is `date(timestamp) + "_" + os_type`,
computed in `process_and_store_data` before the call. -/
structure MatRecord where
  command : String
  cpu_usage : ℚ
  mem_usage : ℚ
  partition_key : String
deriving DecidableEq, Repr

/-- An `AggregateRollup` value as stored under `agg_{partition_key}`. -/
structure AggRollup where
  total_cpu_usage : ℚ
  total_memory_usage : ℚ
  process_count : Nat
  top_cpu_processes : List (String × ℚ)
  top_memory_processes : List (String × ℚ)
deriving DecidableEq, Repr

/-- Duplicate removal keeping each element's first occurrence, with an
accumulator of already-seen elements (the behaviour of both
`dict.fromkeys` and the distinct keys of a pandas `groupby`). -/
def dedupAux : List String → List String → List String
  | [], _ => []
  | a :: l, seen => if a ∈ seen then dedupAux l seen else a :: dedupAux l (a :: seen)

/-- Duplicate removal keeping first occurrences. -/
def dedupKeepFirst (l : List String) : List String := dedupAux l []

/-- `Series.nunique`: the number of distinct values. -/
def distinctCount (l : List String) : Nat := (dedupKeepFirst l).length

/-- `DataFrame.nlargest(10, col)[['command', col]].to_dict('records')`:
rows sorted descending by `f` — ties keeping the earlier row first
(`keep='first'`, realised as a stable sort) — truncated to 10, projected to
`(command, value)` pairs. -/
def topProcesses (f : MatRecord → ℚ) (g : List MatRecord) : List (String × ℚ) :=
  ((List.insertionSort (fun a b => f b ≤ f a) g).take 10).map (fun r => (r.command, f r))

/-- The aggregate computed for one partition's rows. -/
def aggregatedData (g : List MatRecord) : AggRollup :=
  { total_cpu_usage := (g.map (fun r => r.cpu_usage)).sum
    total_memory_usage := (g.map (fun r => r.mem_usage)).sum
    process_count := distinctCount (g.map (fun r => r.command))
    top_cpu_processes := topProcesses (fun r => r.cpu_usage) g
    top_memory_processes := topProcesses (fun r => r.mem_usage) g }

/-- `DataOrganizer._update_redis_aggregations`: for each distinct
`partition_key` of this batch, recompute the rollup from this batch's subset
of rows and `redis_client.set` it under `agg_{partition_key}` (an unguarded
overwrite).  The source iterates the groups of `df.groupby('partition_key')`;
since distinct keys get distinct store entries, the final store does not
depend on the iteration order, and first-occurrence order is used here. -/
def updateRedisAggregations (store : Store AggRollup) (df : List MatRecord) :
    Store AggRollup :=
  (dedupKeepFirst (df.map (fun r => r.partition_key))).foldl
    (fun s k => kvSet s ("agg_" ++ k) (aggregatedData (df.filter (fun r => r.partition_key = k))))
    store

/-! ## Query engine (`app/services/query_engine.py`)

Datetimes are embedded as `Nat` epoch seconds; `timedelta(days=n)` is
`n * 86400` seconds and `datetime.date()` is division by 86400, rendered in
ISO form by `dateISO` below. -/

def secondsPerDay : Nat := 86400

/-- `datetime.date()`: the calendar day (as a rata-die day count). -/
def dateOf (t : Nat) : Nat := t / secondsPerDay

/-- Civil date from days since 1970-01-01 (proleptic Gregorian). -/
def civilFromDays (z : Nat) : Nat × Nat × Nat :=
  let z' := z + 719468
  let era := z' / 146097
  let doe := z' % 146097
  let yoe := (doe - doe / 1460 + doe / 36524 - doe / 146097) / 365
  let y := yoe + era * 400
  let doy := doe - (365 * yoe + yoe / 4 - yoe / 100)
  let mp := (5 * doy + 2) / 153
  let d := doy - (153 * mp + 2) / 5 + 1
  let m := if mp < 10 then mp + 3 else mp - 9
  (if m ≤ 2 then y + 1 else y, m, d)

/-- `str(datetime.date)`: ISO `YYYY-MM-DD` rendering of a rata-die day. -/
def dateISO (z : Nat) : String :=
  let c := civilFromDays z
  padZeros 4 c.1 ++ "-" ++ padZeros 2 c.2.1 ++ "-" ++ padZeros 2 c.2.2

/-- The structured output of `_analyze_query`: raw parameters with
structural defaults applied (`type='historical'`, `limit=100`, `offset=0`,
empty aggregation and grouping lists); `limit = none` models an explicit
JSON `null`. -/
structure AnalyzedQuery where
  type : String
  start_time : Option Nat
  end_time : Option Nat
  os_type : Option String
  machine_id : Option String
  command : Option String
  cpu_usage_gt : Option ℚ
  memory_usage_gt : Option ℚ
  limit : Option Int
  offset : Int
  aggregations : List String
  group_by : List String
deriving DecidableEq, Repr

/-- The `filters` mapping built by `_optimize_filters`: a field is `none`
exactly when the corresponding key is absent from the Python dict. -/
structure Filters where
  os_type : Option String
  machine_id : Option String
  command : Option String
  cpu_usage_gt : Option ℚ
  memory_usage_gt : Option ℚ
deriving DecidableEq, Repr

/-- The optimized query dict: the analyzed fields (mutated in place by
`_optimize_query`) plus the derived `filters` entry. -/
structure OptimizedQuery where
  type : String
  start_time : Nat
  end_time : Nat
  os_type : Option String
  machine_id : Option String
  command : Option String
  cpu_usage_gt : Option ℚ
  memory_usage_gt : Option ℚ
  limit : Int
  offset : Int
  aggregations : List String
  group_by : List String
  filters : Filters
deriving DecidableEq, Repr

/-- `_optimize_filters`: pass the string filters through when present
(non-`None`), and floor the numeric thresholds at 0. -/
def optimizeFilters (q : AnalyzedQuery) : Filters :=
  { os_type := q.os_type
    machine_id := q.machine_id
    command := q.command
    cpu_usage_gt := q.cpu_usage_gt.map (fun v => max 0 v)
    memory_usage_gt := q.memory_usage_gt.map (fun v => max 0 v) }

/-- The fixed priority list of `_optimize_aggregations`. -/
def priorityOrder : List String := ["count", "sum", "avg", "min", "max"]

/-- `list.index` as a partial lookup. -/
def listIdxOf : List String → String → Option Nat
  | [], _ => none
  | a :: l, x => if a = x then some 0 else (listIdxOf l x).map (fun n => n + 1)

/-- The sort key of `_optimize_aggregations`:
`priority_order.index(x.split('_')[0])` when the part before the first
underscore is recognised, else `len(priority_order)`. -/
def aggPriority (x : String) : Nat :=
  (listIdxOf priorityOrder (String.mk ((splitOnChar '_' x.data).headD []))).getD
    priorityOrder.length

/-- `_optimize_aggregations`: drop duplicates keeping first occurrences
(`dict.fromkeys`), then stably sort by `aggPriority` (Python's `sorted` is
stable; `insertionSort` realises the same stable sort). -/
def optimizeAggregations (aggs : List String) : List String :=
  List.insertionSort (fun a b => aggPriority a ≤ aggPriority b) (dedupKeepFirst aggs)

/-- `_optimize_query`: default and bound the time range, default the limit
when falsy (`None` or 0) and cap it at 1000, clamp the offset at 0, optimize
the aggregation list when non-empty, and attach the `filters` mapping. -/
def optimizeQuery (now : Nat) (q : AnalyzedQuery) : OptimizedQuery :=
  let s0 := q.start_time.getD (now - 30 * secondsPerDay)
  let e0 := q.end_time.getD now
  let s1 := if s0 > e0 then e0 else s0
  let e1 := if s0 > e0 then s0 else e0
  let s2 := if e1 - s1 > 365 * secondsPerDay then e1 - 365 * secondsPerDay else s1
  let l0 : Int := match q.limit with
    | none => 100
    | some v => if v = 0 then 100 else v
  { type := q.type
    start_time := s2
    end_time := e1
    os_type := q.os_type
    machine_id := q.machine_id
    command := q.command
    cpu_usage_gt := q.cpu_usage_gt
    memory_usage_gt := q.memory_usage_gt
    limit := min l0 1000
    offset := max q.offset 0
    aggregations := if q.aggregations = [] then q.aggregations
      else optimizeAggregations q.aggregations
    group_by := q.group_by
    filters := optimizeFilters q }

/-- The aggregation names answerable from rollups (`pre_aggregated_aggs`). -/
def preAggregatedAggs : List String := ["total_cpu_usage", "total_memory_usage", "process_count"]

/-- `_select_data_source`. -/
def selectDataSource (q : OptimizedQuery) : String :=
  if q.type = "real_time" then "raw_data_store"
  else if q.aggregations = [] then "sql_store"
  else if q.aggregations.all (fun agg => preAggregatedAggs.contains agg) then "pre_aggregated_store"
  else "sql_store"

/-! ### SQL execution (`_execute_on_sql`) -/

/-- A durable-store row restricted to the columns `_execute_on_sql` filters
on; `timestamp` is epoch seconds. -/
structure SqlRecord where
  command : String
  os_type : String
  machine_id : String
  cpu_usage : ℚ
  mem_usage : ℚ
  timestamp : Nat
deriving DecidableEq, Repr

/-- SQL `ILIKE '%pat%'`: case-insensitive substring containment. -/
def ilikeContains (hay pat : String) : Bool :=
  decide (pat.toLower.toList <:+: hay.toLower.toList)

/-- `_execute_on_sql` for record-returning queries (empty `group_by` and
`aggregations`, the projection-free path): the successive `query.filter`
calls of lines 283–298, then `LIMIT`/`OFFSET`.  Note the threshold and
equality filters read the TOP-LEVEL keys of the optimized query
(`optimized_query.get('cpu_usage_gt')` etc.), not its `filters` entry; a
string filter that is present but empty is falsy in Python and skipped.
The embedded store returns rows in insertion order; `limit` is taken
non-negative (the clamped default; negative-`LIMIT` backend behaviour is out
of the spec's scope). -/
def executeOnSqlNoAgg (q : OptimizedQuery) (rows : List SqlRecord) : List SqlRecord :=
  let q1 := rows.filter (fun r => q.start_time ≤ r.timestamp)
  let q2 := q1.filter (fun r => r.timestamp ≤ q.end_time)
  let q3 : List SqlRecord := match q.os_type with
    | some s => if s = "" then q2 else q2.filter (fun r => r.os_type = s)
    | none => q2
  let q4 : List SqlRecord := match q.machine_id with
    | some s => if s = "" then q3 else q3.filter (fun r => r.machine_id = s)
    | none => q3
  let q5 : List SqlRecord := match q.command with
    | some s => if s = "" then q4 else q4.filter (fun r => ilikeContains r.command s)
    | none => q4
  let q6 : List SqlRecord := match q.cpu_usage_gt with
    | some t => q5.filter (fun r => t < r.cpu_usage)
    | none => q5
  let q7 : List SqlRecord := match q.memory_usage_gt with
    | some t => q6.filter (fun r => t < r.mem_usage)
    | none => q6
  (q7.drop q.offset.toNat).take q.limit.toNat

/-! ### Pre-aggregated execution (`_get_aggregated_data`, `_execute_on_pre_aggregated`) -/

/-- The `functools.lru_cache` state of `_get_aggregated_data`: entries in
most-recently-used-first order, keyed by partition key.  A cached `none`
records a lookup that found no rollup (the cached empty dict). -/
abbrev Cache : Type := List (String × Option AggRollup)

/-- `lru_cache(maxsize=128)`. -/
def cacheCapacity : Nat := 128

/-- `_get_aggregated_data(partition_key)` with its LRU cache made explicit:
a hit returns the memoised value (ignoring the store) and refreshes the
entry's recency; a miss reads `agg_{partition_key}` from the rollup store,
memoises the result — also when empty — and evicts the least recently used
entry beyond capacity. -/
def getAggregatedData (store : Store AggRollup) (cache : Cache) (k : String) :
    Option AggRollup × Cache :=
  match cache.find? (fun e => e.1 = k) with
  | some e => (e.2, (k, e.2) :: cache.eraseP (fun e => e.1 = k))
  | none =>
    let v := store ("agg_" ++ k)
    (v, ((k, v) :: cache).take cacheCapacity)

/-- `_execute_on_pre_aggregated`: iterate each calendar date from
`start_time.date()` to `end_time.date()` inclusive; for each date iterate
`filters.get('os_type', ['windows', 'linux', 'mac'])` — a PRESENT `os_type`
filter is a string, so Python iterates its CHARACTERS — build
`f"{date}_{os_type}"`, fetch through the cache, and keep truthy results. -/
def executeOnPreAggregated (store : Store AggRollup) (cache : Cache)
    (q : OptimizedQuery) : List AggRollup × Cache :=
  let d0 := dateOf q.start_time
  let d1 := dateOf q.end_time
  let osList : List String := match q.filters.os_type with
    | some s => s.toList.map (fun c => String.mk [c])
    | none => ["windows", "linux", "mac"]
  (List.range' d0 (d1 + 1 - d0)).foldl
    (fun acc d => osList.foldl
      (fun (acc : List AggRollup × Cache) osTag =>
        let res := getAggregatedData store acc.2 (dateISO d ++ "_" ++ osTag)
        match res.1 with
        | some r => (acc.1 ++ [r], res.2)
        | none => (acc.1, res.2))
      acc)
    ([], cache)

/-! ### Dispatch (`_execute_optimized_query`) -/

/-- The error raised for the raw data store. -/
inductive ExecError where
  | notImplementedError
deriving DecidableEq, Repr

/-- Rows returned by a query: rollups from the pre-aggregated path or
records from the SQL path. -/
inductive QueryOutcome where
  | preAggRows : List AggRollup → QueryOutcome
  | sqlRows : List SqlRecord → QueryOutcome
deriving DecidableEq, Repr

/-- `_execute_optimized_query`: dispatch on the selected source name, raising
`NotImplementedError` for anything else (the raw data store). -/
def executeOptimizedQuery (q : OptimizedQuery) (dataSource : String)
    (store : Store AggRollup) (cache : Cache) (rows : List SqlRecord) :
    Except ExecError QueryOutcome :=
  if dataSource = "pre_aggregated_store" then
    .ok (.preAggRows (executeOnPreAggregated store cache q).1)
  else if dataSource = "sql_store" then
    .ok (.sqlRows (executeOnSqlNoAgg q rows))
  else
    .error .notImplementedError

/-- A sequence of `_get_aggregated_data` calls, each against the rollup
store's state at that moment (the store may be rewritten between calls by
concurrent materializations). -/
def runGets (reqs : List (Store AggRollup × String)) (cache : Cache) : Cache :=
  reqs.foldl (fun c r => (getAggregatedData r.1 c r.2).2) cache

/-! ## Supporting lemmas -/

theorem mem_dedupAux (x : String) : ∀ (l seen : List String),
    x ∈ dedupAux l seen ↔ x ∈ l ∧ x ∉ seen := by
  intro l
  induction l with
  | nil => intro seen; simp [dedupAux]
  | cons a l ih =>
    intro seen
    by_cases ha : a ∈ seen
    · rw [dedupAux, if_pos ha, ih]
      constructor
      · rintro ⟨h1, h2⟩; exact ⟨List.mem_cons_of_mem _ h1, h2⟩
      · rintro ⟨h1, h2⟩
        rcases List.mem_cons.mp h1 with rfl | h1
        · exact absurd ha h2
        · exact ⟨h1, h2⟩
    · rw [dedupAux, if_neg ha]
      simp only [List.mem_cons, ih]
      constructor
      · rintro (rfl | ⟨h1, h2⟩)
        · exact ⟨Or.inl rfl, ha⟩
        · exact ⟨Or.inr h1, fun hx => h2 (Or.inr hx)⟩
      · rintro ⟨rfl | h1, h2⟩
        · exact Or.inl rfl
        · by_cases hxa : x = a
          · exact Or.inl hxa
          · exact Or.inr ⟨h1, fun hx => hx.elim hxa h2⟩

theorem nodup_dedupAux : ∀ (l seen : List String), (dedupAux l seen).Nodup := by
  intro l
  induction l with
  | nil => intro seen; simp [dedupAux]
  | cons a l ih =>
    intro seen
    by_cases ha : a ∈ seen
    · rw [dedupAux, if_pos ha]; exact ih seen
    · rw [dedupAux, if_neg ha]
      refine List.nodup_cons.mpr ⟨fun hmem => ?_, ih (a :: seen)⟩
      exact ((mem_dedupAux a l (a :: seen)).mp hmem).2 (List.mem_cons_self a seen)

theorem mem_dedupKeepFirst {x : String} {l : List String} :
    x ∈ dedupKeepFirst l ↔ x ∈ l := by
  rw [dedupKeepFirst, mem_dedupAux]
  simp

theorem nodup_dedupKeepFirst (l : List String) : (dedupKeepFirst l).Nodup :=
  nodup_dedupAux l []

theorem sublist_dedupAux : ∀ (l seen : List String), List.Sublist (dedupAux l seen) l := by
  intro l
  induction l with
  | nil => intro seen; simp [dedupAux]
  | cons a l ih =>
    intro seen
    by_cases ha : a ∈ seen
    · rw [dedupAux, if_pos ha]; exact (ih seen).trans (List.sublist_cons_self a l)
    · rw [dedupAux, if_neg ha]; exact List.Sublist.cons₂ a (ih (a :: seen))

theorem sublist_dedupKeepFirst (l : List String) : List.Sublist (dedupKeepFirst l) l :=
  sublist_dedupAux l []

/-- A list with no duplicates whose elements all occur in `l` is no longer
than the list of `l`'s distinct elements. -/
theorem length_le_dedup_of_nodup_subset {l₁ l₂ : List String}
    (h1 : l₁.Nodup) (h2 : ∀ x ∈ l₁, x ∈ l₂) :
    l₁.length ≤ (dedupKeepFirst l₂).length :=
  (List.subperm_of_subset h1 (fun x hx => mem_dedupKeepFirst.mpr (h2 x hx))).length_le

/-- Prepending a fixed store-key tag is injective. -/
theorem agg_key_inj {a b : String} (h : "agg_" ++ a = "agg_" ++ b) : a = b := by
  have hd := String.ext_iff.mp h
  rw [String.data_append, String.data_append] at hd
  exact String.ext_iff.mpr (List.append_cancel_left hd)

theorem kvSet_same {α : Type} (s : Store α) (k : String) (v : α) :
    kvSet s k v k = some v := by
  simp [kvSet]

theorem kvSet_other {α : Type} (s : Store α) {k k' : String} (v : α) (h : k' ≠ k) :
    kvSet s k v k' = s k' := by
  simp [kvSet, h]

/-- Folding `kvSet` writes over a duplicate-free key list: a key not in the
list keeps its old value. -/
theorem foldl_kvSet_not_mem (val : String → AggRollup) :
    ∀ (ks : List String) (store : Store AggRollup) (k : String), k ∉ ks →
      (ks.foldl (fun s k' => kvSet s ("agg_" ++ k') (val k')) store) ("agg_" ++ k) =
        store ("agg_" ++ k) := by
  intro ks
  induction ks with
  | nil => intro store k _; rfl
  | cons a ks ih =>
    intro store k hk
    have hka : k ≠ a := fun h => hk (h ▸ List.mem_cons_self a ks)
    rw [List.foldl_cons, ih _ _ (fun h => hk (List.mem_cons_of_mem a h)),
      kvSet_other _ _ (fun h => hka (agg_key_inj h))]

/-- Folding `kvSet` writes over a duplicate-free key list: each listed key
ends up holding exactly its own written value. -/
theorem foldl_kvSet_mem (val : String → AggRollup) :
    ∀ (ks : List String) (store : Store AggRollup) (k : String), ks.Nodup → k ∈ ks →
      (ks.foldl (fun s k' => kvSet s ("agg_" ++ k') (val k')) store) ("agg_" ++ k) =
        some (val k) := by
  intro ks
  induction ks with
  | nil => intro store k _ hk; cases hk
  | cons a ks ih =>
    intro store k hnd hk
    rcases List.mem_cons.mp hk with rfl | hk
    · rw [List.foldl_cons, foldl_kvSet_not_mem val ks _ k (List.nodup_cons.mp hnd).1,
        kvSet_same]
    · exact ih _ k (List.nodup_cons.mp hnd).2 hk

/-- Stability of `insertionSort` under an ascending `Nat` sort key: the
elements of any one key-class keep their original relative order. -/
theorem insertionSort_filter_natKey {α : Type} [DecidableEq α] (key : α → Nat) (p : Nat) :
    ∀ l : List α,
      (List.insertionSort (fun a b => key a ≤ key b) l).filter (fun x => key x = p) =
        l.filter (fun x => key x = p) := by
  intro l
  induction l with
  | nil => rfl
  | cons a l ih =>
    rw [List.insertionSort, List.orderedInsert_eq_take_drop]
    by_cases hp : key a = p
    · have htw : ∀ x ∈ (List.insertionSort (fun a b => key a ≤ key b) l).takeWhile
          (fun b => decide ¬(key a ≤ key b)), (fun x => decide (key x = p)) x = false := by
        intro x hx
        have := List.mem_takeWhile_imp hx
        simp only [decide_eq_true_eq] at this
        simp only [decide_eq_false_iff_not]
        omega
      rw [List.filter_append, List.filter_eq_nil_iff.mpr (fun x hx => by
        have := htw x hx; simpa using this)]
      rw [List.filter_cons, if_pos (by simpa using hp)]
      rw [List.filter_cons, if_pos (by simpa using hp)]
      have hsplit : (List.insertionSort (fun a b => key a ≤ key b) l).filter
          (fun x => key x = p) =
          ((List.insertionSort (fun a b => key a ≤ key b) l).takeWhile
            (fun b => decide ¬(key a ≤ key b))).filter (fun x => key x = p) ++
          ((List.insertionSort (fun a b => key a ≤ key b) l).dropWhile
            (fun b => decide ¬(key a ≤ key b))).filter (fun x => key x = p) := by
        rw [← List.filter_append, List.takeWhile_append_dropWhile]
      rw [hsplit, List.filter_eq_nil_iff.mpr (fun x hx => by
        have := htw x hx; simpa using this), List.nil_append] at ih
      rw [List.nil_append, ih]
    · rw [List.filter_append, List.filter_cons, if_neg (by simpa using hp)]
      rw [List.filter_cons, if_neg (by simpa using hp)]
      rw [← ih, ← List.filter_append, List.takeWhile_append_dropWhile]

/-- Stability of `insertionSort` under a descending `ℚ` sort key (the
`nlargest(…, keep='first')` order): elements of equal value keep their
original relative order. -/
theorem insertionSort_filter_ratKeyDesc {α : Type} [DecidableEq α] (f : α → ℚ) (v : ℚ) :
    ∀ l : List α,
      (List.insertionSort (fun a b => f b ≤ f a) l).filter (fun x => f x = v) =
        l.filter (fun x => f x = v) := by
  intro l
  induction l with
  | nil => rfl
  | cons a l ih =>
    rw [List.insertionSort, List.orderedInsert_eq_take_drop]
    by_cases hp : f a = v
    · have htw : ∀ x ∈ (List.insertionSort (fun a b => f b ≤ f a) l).takeWhile
          (fun b => decide ¬(f b ≤ f a)), (fun x => decide (f x = v)) x = false := by
        intro x hx
        have := List.mem_takeWhile_imp hx
        simp only [decide_eq_true_eq] at this
        simp only [decide_eq_false_iff_not]
        intro hxv
        exact this (le_of_eq (hxv.trans hp.symm))
      rw [List.filter_append, List.filter_eq_nil_iff.mpr (fun x hx => by
        have := htw x hx; simpa using this)]
      rw [List.filter_cons, if_pos (by simpa using hp)]
      rw [List.filter_cons, if_pos (by simpa using hp)]
      have hsplit : (List.insertionSort (fun a b => f b ≤ f a) l).filter
          (fun x => f x = v) =
          ((List.insertionSort (fun a b => f b ≤ f a) l).takeWhile
            (fun b => decide ¬(f b ≤ f a))).filter (fun x => f x = v) ++
          ((List.insertionSort (fun a b => f b ≤ f a) l).dropWhile
            (fun b => decide ¬(f b ≤ f a))).filter (fun x => f x = v) := by
        rw [← List.filter_append, List.takeWhile_append_dropWhile]
      rw [hsplit, List.filter_eq_nil_iff.mpr (fun x hx => by
        have := htw x hx; simpa using this), List.nil_append] at ih
      rw [List.nil_append, ih]
    · rw [List.filter_append, List.filter_cons, if_neg (by simpa using hp)]
      rw [List.filter_cons, if_neg (by simpa using hp)]
      rw [← ih, ← List.filter_append, List.takeWhile_append_dropWhile]

/-- The descending sort used by `topProcesses` is sorted. -/
theorem pairwise_insertionSort_ratDesc {α : Type} (f : α → ℚ) (l : List α) :
    (List.insertionSort (fun a b => f b ≤ f a) l).Pairwise (fun a b => f b ≤ f a) := by
  letI : IsTotal α (fun a b => f b ≤ f a) := ⟨fun a b => (le_total (f b) (f a)).symm.symm⟩
  letI : IsTrans α (fun a b => f b ≤ f a) := ⟨fun _ _ _ h1 h2 => le_trans h2 h1⟩
  exact List.sorted_insertionSort _ l

/-! ## Claim C4 -/

/-- Claim C4: for every materialized batch and every distinct partition key
occurring in it, `_update_redis_aggregations` writes under that key the
rollup computed from that batch's records only — `total_cpu_usage` and
`total_memory_usage` the sums, `process_count` the distinct-command count,
and the top lists up to 10 `(command, usage)` pairs in descending order with
ties in encounter order — overwriting any existing entry wholesale, so after
two sequential materializations touching the same key the rollup reflects
only the second batch. -/
theorem c4_rollup_recomputed_and_overwritten_per_batch
    (store : Store AggRollup) (df df' : List MatRecord) (k : String)
    (hk : k ∈ df'.map (fun r => r.partition_key)) :
    updateRedisAggregations store df' ("agg_" ++ k) =
      some (aggregatedData (df'.filter (fun r => r.partition_key = k)))
    ∧ updateRedisAggregations (updateRedisAggregations store df) df' ("agg_" ++ k) =
      some (aggregatedData (df'.filter (fun r => r.partition_key = k)))
    ∧ (∀ g : List MatRecord,
        (aggregatedData g).total_cpu_usage = (g.map (fun r => r.cpu_usage)).sum
        ∧ (aggregatedData g).total_memory_usage = (g.map (fun r => r.mem_usage)).sum
        ∧ (aggregatedData g).process_count = distinctCount (g.map (fun r => r.command))
        ∧ (aggregatedData g).top_cpu_processes.length ≤ 10
        ∧ (aggregatedData g).top_memory_processes.length ≤ 10
        ∧ (aggregatedData g).top_cpu_processes.Pairwise (fun a b => b.2 ≤ a.2)
        ∧ (aggregatedData g).top_memory_processes.Pairwise (fun a b => b.2 ≤ a.2)
        ∧ (∀ v : ℚ,
            (List.insertionSort (fun a b => b.cpu_usage ≤ a.cpu_usage) g).filter
                (fun r => r.cpu_usage = v) = g.filter (fun r => r.cpu_usage = v))
        ∧ (∀ v : ℚ,
            (List.insertionSort (fun a b => b.mem_usage ≤ a.mem_usage) g).filter
                (fun r => r.mem_usage = v) = g.filter (fun r => r.mem_usage = v))) := by
  have hwrite : ∀ s : Store AggRollup,
      updateRedisAggregations s df' ("agg_" ++ k) =
        some (aggregatedData (df'.filter (fun r => r.partition_key = k))) := by
    intro s
    exact foldl_kvSet_mem
      (fun k => aggregatedData (df'.filter (fun r => r.partition_key = k)))
      (dedupKeepFirst (df'.map (fun r => r.partition_key))) s k
      (nodup_dedupKeepFirst _) (mem_dedupKeepFirst.mpr hk)
  refine ⟨hwrite store, hwrite _, fun g => ⟨rfl, rfl, rfl, ?_, ?_, ?_, ?_, ?_, ?_⟩⟩
  · simp only [aggregatedData, topProcesses, List.length_map, List.length_take]
    omega
  · simp only [aggregatedData, topProcesses, List.length_map, List.length_take]
    omega
  · refine List.pairwise_map.mpr ?_
    exact ((pairwise_insertionSort_ratDesc (fun r => r.cpu_usage) g).sublist
      (List.take_sublist 10 _))
  · refine List.pairwise_map.mpr ?_
    exact ((pairwise_insertionSort_ratDesc (fun r => r.mem_usage) g).sublist
      (List.take_sublist 10 _))
  · exact fun v => insertionSort_filter_ratKeyDesc (fun r => r.cpu_usage) v g
  · exact fun v => insertionSort_filter_ratKeyDesc (fun r => r.mem_usage) v g

/-- Witness for C4 at a concrete two-batch instance: key `"k"` occurs in the
second batch, and after both materializations the stored rollup is exactly
the one recomputed from the second batch's `"k"`-rows. -/
theorem c4_rollup_recomputed_and_overwritten_per_batch_witness :
    updateRedisAggregations
        (updateRedisAggregations kvEmpty [⟨"a", 9, 9, "k"⟩])
        [⟨"b", 3, 4, "k"⟩, ⟨"c", 5, 6, "k2"⟩, ⟨"b", 1, 2, "k"⟩] ("agg_" ++ "k") =
      some (aggregatedData
        ([⟨"b", 3, 4, "k"⟩, ⟨"c", 5, 6, "k2"⟩, ⟨"b", 1, 2, "k"⟩].filter
          (fun r => r.partition_key = "k"))) :=
  (c4_rollup_recomputed_and_overwritten_per_batch kvEmpty [⟨"a", 9, 9, "k"⟩]
    [⟨"b", 3, 4, "k"⟩, ⟨"c", 5, 6, "k2"⟩, ⟨"b", 1, 2, "k"⟩] "k" (by decide)).2.1

/-! ## Claims C1–C3 (parser and batch-id bugs) -/

/-- Claim C1 (code bug): the claim says a well-formed Unix listing — a
header line starting with `USER` followed by `N ≥ 1` data lines with 11 or
more tokens — parses to exactly `N` records with multi-token commands
rejoined.  The code instead (a) rejects the §8 spec scenario (header plus
two valid data lines) because it checks `startswith("USER")` on the line
AFTER the skipped one, (b) rejects it even when an extra leading line puts
the real header at index 1, because that header line is then also parsed as
a data line (`int("PID")` fails), and (c) rejects any data line with more
than 11 tokens (a command with arguments) via the `!= 11` length check. -/
theorem c1_unix_parse_rejects_wellformed_listing :
    unixParse ("USER PID %CPU %MEM VSZ RSS TTY STAT START TIME COMMAND\n" ++
        "root 1 0.0 0.1 169000 11000 ? Ss Jan01 0:02 /sbin/init\n" ++
        "daemon 2 0.0 0.0 0 0 ? S Jan01 0:00 kthreadd") = .error .formatError
    ∧ unixParse ("ps auxww\nUSER PID %CPU %MEM VSZ RSS TTY STAT START TIME COMMAND\n" ++
        "root 1 0.0 0.1 169000 11000 ? Ss Jan01 0:02 /sbin/init") = .error .formatError
    ∧ unixParse "X\nUSER1 2 0.0 0.1 10 20 tty S Jan 0:00 sleep 100" = .error .formatError := by
  refine ⟨by decide, by decide, by decide⟩

/-- Claim C2 (code bug): `store_process_data_in_redis` derives the batch id
from `pd.Timestamp.now().strftime('%Y%m%d%H%M%S')` alone — no counter — so
two ingest calls at distinct instants of the same wall-clock second get the
SAME batch id, and the second staged batch overwrites the first in the
staging store. -/
theorem c2_batch_id_collides_within_same_second :
    (storeProcessDataInRedis kvEmpty ⟨2024, 1, 1, 12, 0, 0, 100⟩
        ⟨"2024-01-01T12:00:00.000100", "m", "i", "linux"⟩ []).2.1 =
      (storeProcessDataInRedis kvEmpty ⟨2024, 1, 1, 12, 0, 0, 600⟩
        ⟨"2024-01-01T12:00:00.000600", "m", "i", "linux"⟩ []).2.1
    ∧ (⟨2024, 1, 1, 12, 0, 0, 100⟩ : PyTimestamp) ≠ ⟨2024, 1, 1, 12, 0, 0, 600⟩
    ∧ (storeProcessDataInRedis kvEmpty ⟨2024, 1, 1, 12, 0, 0, 100⟩
        ⟨"2024-01-01T12:00:00.000100", "m", "i", "linux"⟩ []).2.1 = "batch_20240101120000"
    ∧ ((storeProcessDataInRedis
          (storeProcessDataInRedis kvEmpty ⟨2024, 1, 1, 12, 0, 0, 100⟩
            ⟨"2024-01-01T12:00:00.000100", "m", "i", "linux"⟩ []).1
          ⟨2024, 1, 1, 12, 0, 0, 600⟩ ⟨"2024-01-01T12:00:00.000600", "m", "i", "linux"⟩ []).1)
        "batch_20240101120000" =
        some ⟨⟨"2024-01-01T12:00:00.000600", "m", "i", "linux"⟩, []⟩ := by
  refine ⟨by decide, by decide, by decide, by decide⟩

/-- Claim C3 (code bug): the claim says every field-shape violation —
including a header line not starting with `USER` — raises `FormatError`.
Because the code checks `startswith("USER")` on the line after the skipped
one, the input below with header `XHDR` parses SUCCESSFULLY to one record
(its single data line happens to begin with `USER1`); and in the Windows
variant an unparsable data line (here: an empty line) raises an uncaught
`IndexError`, not the 400 `FormatError`. -/
theorem c3_shape_violations_not_format_errors :
    ¬ ("USER".data.isPrefixOf "XHDR".data)
    ∧ (unixParse "XHDR\nUSER1 2 0 0 10 20 tty S Jan 0:00 cmd").toOption.map
        (fun rs => (rs.map (fun r => r.command), rs.map (fun r => r.user),
          rs.map (fun r => r.pid))) = some (["cmd"], ["USER1"], [2])
    ∧ windowsParse "hdr\n===== ===== ===== ===== =====\n\n" = .error .pyError := by
  refine ⟨by decide, by decide, by decide⟩

/-! ## Claim C5 -/

/-- Claim C5: `real_time` queries select the raw data store and execution
raises `NotImplementedError`; otherwise an empty aggregation list selects
the primary (SQL) store, a list fully inside
`{total_cpu_usage, total_memory_usage, process_count}` selects the
pre-aggregated store, and any other list selects the primary store. -/
theorem c5_data_source_selection (q : OptimizedQuery) (store : Store AggRollup)
    (cache : Cache) (rows : List SqlRecord) :
    (q.type = "real_time" →
      selectDataSource q = "raw_data_store"
      ∧ executeOptimizedQuery q (selectDataSource q) store cache rows =
          .error .notImplementedError)
    ∧ (q.type ≠ "real_time" →
        (q.aggregations = [] → selectDataSource q = "sql_store")
        ∧ (q.aggregations ≠ [] →
            ((∀ a ∈ q.aggregations, a ∈ preAggregatedAggs) →
              selectDataSource q = "pre_aggregated_store")
            ∧ ((∃ a ∈ q.aggregations, a ∉ preAggregatedAggs) →
              selectDataSource q = "sql_store"))) := by
  constructor
  · intro hrt
    have hsel : selectDataSource q = "raw_data_store" := by
      simp [selectDataSource, hrt]
    refine ⟨hsel, ?_⟩
    rw [hsel]
    simp [executeOptimizedQuery]
  · intro hrt
    constructor
    · intro hempty
      simp [selectDataSource, hrt, hempty]
    · intro hne
      constructor
      · intro hall
        have hb : q.aggregations.all (fun agg => preAggregatedAggs.contains agg) = true := by
          rw [List.all_eq_true]
          intro a ha
          exact List.elem_iff.mpr (hall a ha)
        rw [selectDataSource, if_neg hrt, if_neg hne, if_pos hb]
      · rintro ⟨a, ha, hnotin⟩
        have hb : ¬ (q.aggregations.all (fun agg => preAggregatedAggs.contains agg) = true) := by
          rw [List.all_eq_true]
          intro hcontra
          exact hnotin (List.elem_iff.mp (hcontra a ha))
        rw [selectDataSource, if_neg hrt, if_neg hne, if_neg hb]

/-- Witness for C5 at a concrete `real_time` query: the raw data store is
selected and execution fails with `NotImplementedError`. -/
theorem c5_data_source_selection_witness :
    selectDataSource
        ⟨"real_time", 0, 100, none, none, none, none, none, 100, 0, [], [],
          ⟨none, none, none, none, none⟩⟩ = "raw_data_store"
    ∧ executeOptimizedQuery
        ⟨"real_time", 0, 100, none, none, none, none, none, 100, 0, [], [],
          ⟨none, none, none, none, none⟩⟩
        (selectDataSource
          ⟨"real_time", 0, 100, none, none, none, none, none, 100, 0, [], [],
            ⟨none, none, none, none, none⟩⟩) kvEmpty [] [] =
        .error .notImplementedError :=
  (c5_data_source_selection
    ⟨"real_time", 0, 100, none, none, none, none, none, 100, 0, [], [],
      ⟨none, none, none, none, none⟩⟩ kvEmpty [] []).1 rfl

/-! ## Claim C6 -/

/-- Counterexample to claim C6: for the input `limit = -5` the optimize
stage leaves the limit at `-5` — outside the claimed interval `[1, 1000]`
and different from the claimed clamp value `1` (the code caps only the
upper end: `min(limit, 1000)` with no lower clamp). -/
theorem c6_counterexample_negative_limit_kept :
    (optimizeQuery 5000
        ⟨"historical", some 1000, some 2000, none, none, none, none, none,
          some (-5), -5, [], []⟩).limit = -5
    ∧ (optimizeQuery 5000
        ⟨"historical", some 1000, some 2000, none, none, none, none, none,
          some (-5), -5, [], []⟩).limit < 1 := by
  refine ⟨by decide, by decide⟩

/-- Claim C6 as amended: after the optimize stage the limit is at most 1000
— defaulting to 100 when unset (`None`) or falsy (`0`) and clamping larger
values down to 1000 — but a nonzero limit below the interval (in particular
a negative one) is passed through unchanged; the offset is clamped to be
`≥ 0` (so `offset = -5` becomes 0). -/
theorem c6_limit_capped_above_offset_clamped (now : Nat) (q : AnalyzedQuery) :
    (optimizeQuery now q).limit ≤ 1000
    ∧ 0 ≤ (optimizeQuery now q).offset
    ∧ ((q.limit = none ∨ q.limit = some 0) → (optimizeQuery now q).limit = 100)
    ∧ (∀ v : Int, q.limit = some v → 1000 < v → (optimizeQuery now q).limit = 1000)
    ∧ (∀ v : Int, q.limit = some v → v ≠ 0 → v ≤ 1000 → (optimizeQuery now q).limit = v)
    ∧ (0 ≤ q.offset → (optimizeQuery now q).offset = q.offset)
    ∧ (q.offset < 0 → (optimizeQuery now q).offset = 0) := by
  have hlim : (optimizeQuery now q).limit =
      min (match q.limit with | none => 100 | some v => if v = 0 then 100 else v) 1000 := rfl
  have hoff : (optimizeQuery now q).offset = max q.offset 0 := rfl
  rw [hlim, hoff]
  cases q.limit with
  | none =>
    refine ⟨min_le_right _ _, le_max_right _ _, fun _ => by decide,
      fun v h => Option.noConfusion h, fun v h => Option.noConfusion h,
      fun h => max_eq_left h, fun h => max_eq_right (le_of_lt h)⟩
  | some v =>
    have hmv : (match some v with | none => (100 : Int) | some w => if w = 0 then 100 else w) =
        if v = 0 then 100 else v := rfl
    rw [hmv]
    refine ⟨min_le_right _ _, le_max_right _ _, ?_, ?_, ?_,
      fun h => max_eq_left h, fun h => max_eq_right (le_of_lt h)⟩
    · rintro (h | h)
      · exact Option.noConfusion h
      · have hv := Option.some.inj h
        subst hv
        rw [if_pos rfl]
        decide
    · intro w hw hgt
      have hv := Option.some.inj hw
      subst hv
      rw [if_neg (by omega)]
      exact min_eq_right (le_of_lt hgt)
    · intro w hw hw0 hle
      have hv := Option.some.inj hw
      subst hv
      rw [if_neg hw0]
      exact min_eq_left hle

/-- Witness for C6 (amended) at concrete inputs: `limit = 5000` is capped
to 1000 and a negative offset is clamped to 0. -/
theorem c6_limit_capped_above_offset_clamped_witness :
    (optimizeQuery 5000
        ⟨"historical", some 1000, some 2000, none, none, none, none, none,
          some 5000, -5, [], []⟩).limit = 1000
    ∧ (optimizeQuery 5000
        ⟨"historical", some 1000, some 2000, none, none, none, none, none,
          some 5000, -5, [], []⟩).offset = 0 :=
  ⟨(c6_limit_capped_above_offset_clamped 5000
      ⟨"historical", some 1000, some 2000, none, none, none, none, none,
        some 5000, -5, [], []⟩).2.2.2.1 5000 rfl (by decide),
   (c6_limit_capped_above_offset_clamped 5000
      ⟨"historical", some 1000, some 2000, none, none, none, none, none,
        some 5000, -5, [], []⟩).2.2.2.2.2.2 (by decide)⟩

/-! ## Claim C9 -/

/-- Claim C9: `_optimize_aggregations` first removes duplicates keeping each
name's first occurrence (a duplicate-free sublist with the same members),
then stably sorts by the priority of the part before the first underscore
(`count < sum < avg < min < max <` unrecognised): the result is
priority-sorted, a permutation of the deduplicated list, and each priority
class keeps its original relative order; in particular
`["avg_cpu", "count_pid", "sum_mem"]` becomes
`["count_pid", "sum_mem", "avg_cpu"]`. -/
theorem c9_optimize_aggregations_dedup_stable_priority_sort (aggs : List String) :
    optimizeAggregations ["avg_cpu", "count_pid", "sum_mem"] =
      ["count_pid", "sum_mem", "avg_cpu"]
    ∧ optimizeAggregations ["sum_a", "sum_b", "sum_a"] = ["sum_a", "sum_b"]
    ∧ (dedupKeepFirst aggs).Nodup
    ∧ List.Sublist (dedupKeepFirst aggs) aggs
    ∧ (∀ x, x ∈ dedupKeepFirst aggs ↔ x ∈ aggs)
    ∧ (optimizeAggregations aggs).Pairwise (fun a b => aggPriority a ≤ aggPriority b)
    ∧ List.Perm (optimizeAggregations aggs) (dedupKeepFirst aggs)
    ∧ (∀ p : Nat, (optimizeAggregations aggs).filter (fun x => aggPriority x = p) =
        (dedupKeepFirst aggs).filter (fun x => aggPriority x = p)) := by
  refine ⟨by decide, by decide, nodup_dedupKeepFirst aggs, sublist_dedupKeepFirst aggs,
    fun x => mem_dedupKeepFirst, ?_, List.perm_insertionSort _ _,
    fun p => insertionSort_filter_natKey aggPriority p (dedupKeepFirst aggs)⟩
  letI : IsTotal String (fun a b => aggPriority a ≤ aggPriority b) :=
    ⟨fun a b => Nat.le_total (aggPriority a) (aggPriority b)⟩
  letI : IsTrans String (fun a b => aggPriority a ≤ aggPriority b) :=
    ⟨fun _ _ _ h1 h2 => Nat.le_trans h1 h2⟩
  exact List.sorted_insertionSort _ _

/-! ## Claim C8 -/

/-- Membership through one optional string-equality filter stage of
`_execute_on_sql` (skipped when absent or falsy-empty). -/
theorem mem_strFilterStage (l : List SqlRecord) (f : SqlRecord → String)
    (o : Option String) (r : SqlRecord) :
    (r ∈ (match o with
      | some s => if s = "" then l else l.filter (fun x => f x = s)
      | none => l)) ↔
      r ∈ l ∧ (∀ s, o = some s → s ≠ "" → f r = s) := by
  cases o with
  | none => simp
  | some s =>
    by_cases hs : s = ""
    · subst hs
      simp
    · have hred : (match some s with
          | some s => if s = "" then l else l.filter (fun x => f x = s)
          | none => l) = l.filter (fun x => f x = s) := by
        simp [hs]
      rw [hred]
      simp only [List.mem_filter, decide_eq_true_eq, Option.some.injEq]
      constructor
      · rintro ⟨h1, h2⟩
        exact ⟨h1, fun s' hs' _ => hs' ▸ h2⟩
      · rintro ⟨h1, h2⟩
        exact ⟨h1, h2 s rfl hs⟩

/-- Membership through the optional case-insensitive substring filter stage
of `_execute_on_sql` (skipped when absent or falsy-empty). -/
theorem mem_ilikeFilterStage (l : List SqlRecord) (o : Option String) (r : SqlRecord) :
    (r ∈ (match o with
      | some s => if s = "" then l else l.filter (fun x => ilikeContains x.command s)
      | none => l)) ↔
      r ∈ l ∧ (∀ s, o = some s → s ≠ "" → ilikeContains r.command s = true) := by
  cases o with
  | none => simp
  | some s =>
    by_cases hs : s = ""
    · subst hs
      simp
    · have hred : (match some s with
          | some s => if s = "" then l else l.filter (fun x => ilikeContains x.command s)
          | none => l) = l.filter (fun x => ilikeContains x.command s) := by
        simp [hs]
      rw [hred]
      simp only [List.mem_filter, Option.some.injEq]
      constructor
      · rintro ⟨h1, h2⟩
        exact ⟨h1, fun s' hs' _ => hs' ▸ h2⟩
      · rintro ⟨h1, h2⟩
        exact ⟨h1, h2 s rfl hs⟩

/-- Membership through one optional strictly-greater-than threshold stage of
`_execute_on_sql`. -/
theorem mem_gtFilterStage (l : List SqlRecord) (f : SqlRecord → ℚ)
    (o : Option ℚ) (r : SqlRecord) :
    (r ∈ (match o with
      | some t => l.filter (fun x => t < f x)
      | none => l)) ↔
      r ∈ l ∧ (∀ t, o = some t → t < f r) := by
  cases o with
  | none => simp
  | some t =>
    simp only [List.mem_filter, decide_eq_true_eq, Option.some.injEq]
    constructor
    · rintro ⟨h1, h2⟩
      exact ⟨h1, fun t' ht' => ht' ▸ h2⟩
    · rintro ⟨h1, h2⟩
      exact ⟨h1, h2 t rfl⟩

/-- The optional string-equality stage never lengthens the row list. -/
theorem len_strFilterStage (l : List SqlRecord) (f : SqlRecord → String) (o : Option String) :
    (match o with
      | some s => if s = "" then l else l.filter (fun x => f x = s)
      | none => l).length ≤ l.length := by
  cases o with
  | none => exact le_refl _
  | some s =>
    by_cases hs : s = ""
    · simp [hs]
    · simp only [if_neg hs]
      exact List.length_filter_le _ _

/-- The optional substring stage never lengthens the row list. -/
theorem len_ilikeFilterStage (l : List SqlRecord) (o : Option String) :
    (match o with
      | some s => if s = "" then l else l.filter (fun x => ilikeContains x.command s)
      | none => l).length ≤ l.length := by
  cases o with
  | none => exact le_refl _
  | some s =>
    by_cases hs : s = ""
    · simp [hs]
    · simp only [if_neg hs]
      exact List.length_filter_le _ _

/-- The optional threshold stage never lengthens the row list. -/
theorem len_gtFilterStage (l : List SqlRecord) (f : SqlRecord → ℚ) (o : Option ℚ) :
    (match o with
      | some t => l.filter (fun x => t < f x)
      | none => l).length ≤ l.length := by
  cases o with
  | none => exact le_refl _
  | some t => exact List.length_filter_le _ _

/-- Counterexample to claim C8: supplied `cpu_usage_gt = -5`.  The optimize
stage stores the floored threshold `0` in `filters`, but execution applies
the RAW `-5`: the record below has `cpu_usage = 0`, fails the claimed test
`0 > max(0, -5)`, yet is returned. -/
theorem c8_counterexample_floored_threshold_unused :
    (optimizeQuery 5000
        ⟨"historical", some 1000, some 2000, none, none, none, some (-5), none,
          some 100, 0, [], []⟩).filters.cpu_usage_gt = some 0
    ∧ executeOnSqlNoAgg
        (optimizeQuery 5000
          ⟨"historical", some 1000, some 2000, none, none, none, some (-5), none,
            some 100, 0, [], []⟩)
        [⟨"init", "linux", "m1", 0, 0, 1500⟩] = [⟨"init", "linux", "m1", 0, 0, 1500⟩]
    ∧ ¬ (max 0 (-5 : ℚ) < (0 : ℚ)) := by
  refine ⟨by decide, by decide, by decide⟩

/-- Claim C8 as amended: on the record-returning SQL path the rows returned
are exactly those records in the time window passing the present equality
filters and whose `cpu_usage` (resp. `mem_usage`) is strictly greater than
the RAW supplied threshold — not the floored-at-0 value: the `filters`
mapping built during optimization (which holds `max(0, value)`) is never
read by SQL execution, so a negative supplied threshold behaves as itself,
not as 0.  (Stated for offset 0 and a limit covering all rows, so that
`LIMIT`/`OFFSET` truncation does not intervene.) -/
theorem c8_sql_applies_raw_thresholds (oq : OptimizedQuery) (rows : List SqlRecord)
    (r : SqlRecord) (hoff : oq.offset = 0) (hlim : (rows.length : Int) ≤ oq.limit) :
    (∀ F : Filters, executeOnSqlNoAgg { oq with filters := F } rows =
      executeOnSqlNoAgg oq rows)
    ∧ (r ∈ executeOnSqlNoAgg oq rows ↔
        r ∈ rows
        ∧ oq.start_time ≤ r.timestamp ∧ r.timestamp ≤ oq.end_time
        ∧ (∀ s, oq.os_type = some s → s ≠ "" → r.os_type = s)
        ∧ (∀ s, oq.machine_id = some s → s ≠ "" → r.machine_id = s)
        ∧ (∀ s, oq.command = some s → s ≠ "" → ilikeContains r.command s = true)
        ∧ (∀ t, oq.cpu_usage_gt = some t → t < r.cpu_usage)
        ∧ (∀ t, oq.memory_usage_gt = some t → t < r.mem_usage)) := by
  constructor
  · intro F
    rfl
  · have key : ∀ l : List SqlRecord, l.length ≤ rows.length →
        (l.drop oq.offset.toNat).take oq.limit.toNat = l := by
      intro l hl
      rw [hoff]
      simp only [Int.toNat_zero, List.drop_zero]
      exact List.take_of_length_le (le_trans hl (by omega))
    simp only [executeOnSqlNoAgg]
    rw [key]
    · rw [mem_gtFilterStage _ (fun x => x.mem_usage), mem_gtFilterStage _ (fun x => x.cpu_usage),
        mem_ilikeFilterStage, mem_strFilterStage _ (fun x => x.machine_id),
        mem_strFilterStage _ (fun x => x.os_type), List.mem_filter, List.mem_filter]
      simp only [decide_eq_true_eq]
      tauto
    · exact le_trans (len_gtFilterStage _ (fun x => x.mem_usage) _)
        (le_trans (len_gtFilterStage _ (fun x => x.cpu_usage) _)
          (le_trans (len_ilikeFilterStage _ _)
            (le_trans (len_strFilterStage _ (fun x => x.machine_id) _)
              (le_trans (len_strFilterStage _ (fun x => x.os_type) _)
                (le_trans (List.length_filter_le _ _) (List.length_filter_le _ _))))))

/-- Witness for C8 (amended) at a concrete query: replacing the `filters`
entry wholesale does not change the SQL execution result. -/
theorem c8_sql_applies_raw_thresholds_witness :
    executeOnSqlNoAgg
        { (⟨"historical", 1000, 2000, none, none, none, some (-5), none, 100, 0, [], [],
            ⟨none, none, none, some 0, none⟩⟩ : OptimizedQuery) with
          filters := ⟨some "windows", some "m", some "c", some 99, some 99⟩ }
        [⟨"init", "linux", "m1", 0, 0, 1500⟩] =
      executeOnSqlNoAgg
        ⟨"historical", 1000, 2000, none, none, none, some (-5), none, 100, 0, [], [],
          ⟨none, none, none, some 0, none⟩⟩
        [⟨"init", "linux", "m1", 0, 0, 1500⟩] :=
  (c8_sql_applies_raw_thresholds
    ⟨"historical", 1000, 2000, none, none, none, some (-5), none, 100, 0, [], [],
      ⟨none, none, none, some 0, none⟩⟩
    [⟨"init", "linux", "m1", 0, 0, 1500⟩] ⟨"init", "linux", "m1", 0, 0, 1500⟩
    rfl (by decide)).1 ⟨some "windows", some "m", some "c", some 99, some 99⟩

/-! ## Claim C7 -/

/-- Claim C7 (code bug): for a query with os_type filter `"linux"` over the
single date 2024-03-05 (rata die 19787), the claim says execution fetches
exactly the rollup stored under `2024-03-05_linux`.  The code instead
iterates the CHARACTERS of the filter string, fetching
`2024-03-05_l`, `…_i`, `…_n`, `…_u`, `…_x`: with the rollup store holding
only the real key `agg_2024-03-05_linux` the query returns nothing, while a
rollup planted under the bogus key `agg_2024-03-05_l` IS returned. -/
theorem c7_preagg_fetches_per_character_keys :
    selectDataSource
        (optimizeQuery 1709597000
          ⟨"historical", some 1709596800, some 1709596900, some "linux", none, none,
            none, none, some 100, 0, ["total_cpu_usage"], []⟩) = "pre_aggregated_store"
    ∧ (optimizeQuery 1709597000
        ⟨"historical", some 1709596800, some 1709596900, some "linux", none, none,
          none, none, some 100, 0, ["total_cpu_usage"], []⟩).filters.os_type = some "linux"
    ∧ (executeOnPreAggregated
        (kvSet kvEmpty "agg_2024-03-05_linux" ⟨1, 2, 1, [("a", 1)], [("a", 2)]⟩) []
        (optimizeQuery 1709597000
          ⟨"historical", some 1709596800, some 1709596900, some "linux", none, none,
            none, none, some 100, 0, ["total_cpu_usage"], []⟩)).1 = []
    ∧ (executeOnPreAggregated
        (kvSet kvEmpty "agg_2024-03-05_l" ⟨1, 2, 1, [("a", 1)], [("a", 2)]⟩) []
        (optimizeQuery 1709597000
          ⟨"historical", some 1709596800, some 1709596900, some "linux", none, none,
            none, none, some 100, 0, ["total_cpu_usage"], []⟩)).1 =
        [⟨1, 2, 1, [("a", 1)], [("a", 2)]⟩] := by
  refine ⟨by decide, by decide, by decide, by decide⟩

/-! ## Claim C10: the LRU rollup cache

The invariant carried below: the cache decomposes as
`pre ++ (k, v) :: post` where every entry in front of `k` is keyed by some
key looked up since `k` was (the list `S`), and those keys are distinct.
Since at most `|S|` distinct entries can sit in front of `k`, the entry
survives eviction while fewer than 128 distinct other keys have been
touched, and a hit on `k` keeps returning the memoised `v` no matter what
the rollup store holds by then. -/

/-- `dedupKeepFirst` length is monotone under list inclusion. -/
theorem dedup_length_mono {A B : List String} (h : ∀ x ∈ A, x ∈ B) :
    (dedupKeepFirst A).length ≤ (dedupKeepFirst B).length :=
  length_le_dedup_of_nodup_subset (nodup_dedupKeepFirst A)
    (fun x hx => h x (mem_dedupKeepFirst.mp hx))

/-- With duplicate-free keys, erasing the `k'` entry leaves no `k'` entry. -/
theorem eraseP_key_ne {k' : String} :
    ∀ c : Cache, (c.map Prod.fst).Nodup →
      ∀ x ∈ c.eraseP (fun e => e.1 = k'), x.1 ≠ k' := by
  intro c
  induction c with
  | nil =>
    intro _ x hx
    simp [List.eraseP] at hx
  | cons b t ih =>
    intro hnd x hx
    have hndt : (t.map Prod.fst).Nodup := (List.nodup_cons.mp hnd).2
    by_cases hb : b.1 = k'
    · rw [List.eraseP_cons_of_pos (by simp [hb])] at hx
      intro hxk'
      have hxmem : x.1 ∈ t.map Prod.fst := List.mem_map_of_mem _ hx
      rw [hxk', ← hb] at hxmem
      exact (List.nodup_cons.mp hnd).1 hxmem
    · rw [List.eraseP_cons_of_neg (by simp [hb])] at hx
      rcases List.mem_cons.mp hx with rfl | hx'
      · exact hb
      · exact ih hndt x hx'

/-- `find?` hits the distinguished `(k, v)` entry when nothing keyed `k`
precedes it. -/
theorem find?_key_decomp (k : String) (v : Option AggRollup) :
    ∀ (pre : Cache) (post : Cache), (∀ e ∈ pre, e.1 ≠ k) →
      (pre ++ (k, v) :: post).find? (fun e => e.1 = k) = some (k, v) := by
  intro pre
  induction pre with
  | nil =>
    intro post _
    exact List.find?_cons_of_pos _ (by simp)
  | cons b t ih =>
    intro post hpre
    rw [List.cons_append,
      List.find?_cons_of_neg _ (by simp [hpre b (List.mem_cons_self b t)])]
    exact ih post (fun e he => hpre e (List.mem_cons_of_mem b he))

/-- Both branches of `_get_aggregated_data` leave the looked-up key as the
most recent cache entry, holding the returned value. -/
theorem getAggregatedData_mru (σ : Store AggRollup) (c : Cache) (k : String) :
    ∃ rest, (getAggregatedData σ c k).2 = (k, (getAggregatedData σ c k).1) :: rest := by
  have hget : getAggregatedData σ c k = match c.find? (fun e => e.1 = k) with
      | some e => (e.2, (k, e.2) :: c.eraseP (fun e => e.1 = k))
      | none => (σ ("agg_" ++ k), ((k, σ ("agg_" ++ k)) :: c).take cacheCapacity) := rfl
  rw [hget]
  cases hfind : c.find? (fun e => e.1 = k) with
  | some e => exact ⟨c.eraseP (fun e => e.1 = k), rfl⟩
  | none => exact ⟨c.take (cacheCapacity - 1), rfl⟩

/-- One `_get_aggregated_data` call for a key `k' ≠ k` preserves the cache
invariant around `k`'s entry, enlarging the key account `S` by `k'`. -/
theorem lru_step (k : String) (v : Option AggRollup) (σ : Store AggRollup) (k' : String)
    (hk' : k' ≠ k) (S : List String) (pre post : Cache)
    (hnd : (pre.map Prod.fst).Nodup) (hmem : ∀ e ∈ pre, e.1 ∈ S)
    (hbound : (dedupKeepFirst (S ++ [k'])).length < cacheCapacity) :
    ∃ pre' post', (getAggregatedData σ (pre ++ (k, v) :: post) k').2 =
        pre' ++ (k, v) :: post'
      ∧ (pre'.map Prod.fst).Nodup ∧ (∀ e ∈ pre', e.1 ∈ S ++ [k']) := by
  have hget : getAggregatedData σ (pre ++ (k, v) :: post) k' =
      match (pre ++ (k, v) :: post).find? (fun e => e.1 = k') with
      | some e => (e.2, (k', e.2) :: (pre ++ (k, v) :: post).eraseP (fun e => e.1 = k'))
      | none => (σ ("agg_" ++ k'),
          ((k', σ ("agg_" ++ k')) :: (pre ++ (k, v) :: post)).take cacheCapacity) := rfl
  cases hfind : (pre ++ (k, v) :: post).find? (fun e => e.1 = k') with
  | some e =>
    by_cases hpre : ∃ a ∈ pre, a.1 = k'
    · obtain ⟨a, ha, hak⟩ := hpre
      have herase : (pre ++ (k, v) :: post).eraseP (fun e => e.1 = k') =
          pre.eraseP (fun e => e.1 = k') ++ (k, v) :: post :=
        List.eraseP_append_left (by simp [hak]) _ ha
      refine ⟨(k', e.2) :: pre.eraseP (fun e => e.1 = k'), post, ?_, ?_, ?_⟩
      · rw [hget, hfind]
        show (k', e.2) :: (pre ++ (k, v) :: post).eraseP (fun e => e.1 = k') = _
        rw [herase]
        rfl
      · rw [List.map_cons, List.nodup_cons]
        refine ⟨fun hcon => ?_, List.Nodup.sublist
          (List.Sublist.map _ (List.eraseP_sublist pre)) hnd⟩
        obtain ⟨x, hx, hxk⟩ := List.mem_map.mp hcon
        exact eraseP_key_ne pre hnd x hx hxk
      · intro x hx
        rcases List.mem_cons.mp hx with rfl | hx'
        · exact List.mem_append_right _ (List.mem_singleton.mpr rfl)
        · exact List.mem_append_left _
            (hmem x ((List.eraseP_sublist pre).subset hx'))
    · push_neg at hpre
      have herase : (pre ++ (k, v) :: post).eraseP (fun e => e.1 = k') =
          pre ++ (k, v) :: post.eraseP (fun e => e.1 = k') := by
        rw [List.eraseP_append_right _ (fun b hb => by simp [hpre b hb]),
          List.eraseP_cons_of_neg (by simpa using Ne.symm hk')]
      refine ⟨(k', e.2) :: pre, post.eraseP (fun e => e.1 = k'), ?_, ?_, ?_⟩
      · rw [hget, hfind]
        show (k', e.2) :: (pre ++ (k, v) :: post).eraseP (fun e => e.1 = k') = _
        rw [herase]
        rfl
      · rw [List.map_cons, List.nodup_cons]
        refine ⟨fun hcon => ?_, hnd⟩
        obtain ⟨x, hx, hxk⟩ := List.mem_map.mp hcon
        exact hpre x hx hxk
      · intro x hx
        rcases List.mem_cons.mp hx with rfl | hx'
        · exact List.mem_append_right _ (List.mem_singleton.mpr rfl)
        · exact List.mem_append_left _ (hmem x hx')
  | none =>
    have hnone := List.find?_eq_none.mp hfind
    have hk'pre : ∀ a ∈ pre, a.1 ≠ k' := by
      intro a ha
      have := hnone a (List.mem_append_left _ ha)
      simpa using this
    have hlen : pre.length + 1 ≤ (dedupKeepFirst (S ++ [k'])).length := by
      have hnd' : ((k', σ ("agg_" ++ k')) :: pre).map Prod.fst = k' :: pre.map Prod.fst := rfl
      have hnodup : (k' :: pre.map Prod.fst).Nodup := by
        rw [List.nodup_cons]
        refine ⟨fun hcon => ?_, hnd⟩
        obtain ⟨x, hx, hxk⟩ := List.mem_map.mp hcon
        exact hk'pre x hx hxk
      have hsub : ∀ x ∈ k' :: pre.map Prod.fst, x ∈ S ++ [k'] := by
        intro x hx
        rcases List.mem_cons.mp hx with rfl | hx'
        · exact List.mem_append_right _ (List.mem_singleton.mpr rfl)
        · obtain ⟨e, he, hek⟩ := List.mem_map.mp hx'
          exact List.mem_append_left _ (hek ▸ hmem e he)
      have := length_le_dedup_of_nodup_subset hnodup hsub
      simpa using this
    have hcap : pre.length + 1 < cacheCapacity := lt_of_le_of_lt hlen hbound
    obtain ⟨m, hm⟩ : ∃ m, cacheCapacity - (pre.length + 1) = m + 1 :=
      ⟨cacheCapacity - (pre.length + 1) - 1, by omega⟩
    refine ⟨(k', σ ("agg_" ++ k')) :: pre, post.take m, ?_, ?_, ?_⟩
    · rw [hget, hfind]
      show ((k', σ ("agg_" ++ k')) :: (pre ++ (k, v) :: post)).take cacheCapacity = _
      rw [← List.cons_append, List.take_append_eq_append_take,
        List.take_of_length_le (by simpa using le_of_lt hcap)]
      have hlen' : ((k', σ ("agg_" ++ k')) :: pre).length = pre.length + 1 := by simp
      rw [hlen', hm, List.take_succ_cons, List.cons_append]
    · rw [List.map_cons, List.nodup_cons]
      refine ⟨fun hcon => ?_, hnd⟩
      obtain ⟨x, hx, hxk⟩ := List.mem_map.mp hcon
      exact hk'pre x hx hxk
    · intro x hx
      rcases List.mem_cons.mp hx with rfl | hx'
      · exact List.mem_append_right _ (List.mem_singleton.mpr rfl)
      · exact List.mem_append_left _ (hmem x hx')

/-- Iterated `_get_aggregated_data` calls for keys other than `k` preserve
the invariant as long as the account stays below capacity. -/
theorem lru_run (k : String) (v : Option AggRollup) :
    ∀ (reqs : List (Store AggRollup × String)) (S : List String) (pre post : Cache),
      (pre.map Prod.fst).Nodup → (∀ e ∈ pre, e.1 ∈ S) →
      (∀ r ∈ reqs, r.2 ≠ k) →
      (dedupKeepFirst (S ++ reqs.map (fun r => r.2))).length < cacheCapacity →
      ∃ pre' post', runGets reqs (pre ++ (k, v) :: post) = pre' ++ (k, v) :: post'
        ∧ (pre'.map Prod.fst).Nodup
        ∧ (∀ e ∈ pre', e.1 ∈ S ++ reqs.map (fun r => r.2)) := by
  intro reqs
  induction reqs with
  | nil =>
    intro S pre post hnd hmem _ _
    exact ⟨pre, post, rfl, hnd, by simpa using hmem⟩
  | cons rq rest ih =>
    intro S pre post hnd hmem hothers hbound
    have hassoc : S ++ (rq :: rest).map (fun r => r.2) =
        (S ++ [rq.2]) ++ rest.map (fun r => r.2) := by
      rw [List.append_assoc, List.singleton_append, List.map_cons]
    obtain ⟨p1, q1, h1, hnd1, hmem1⟩ :=
      lru_step k v rq.1 rq.2 (hothers rq (List.mem_cons_self rq rest)) S pre post hnd hmem
        (lt_of_le_of_lt
          (dedup_length_mono (fun x hx => by
            rcases List.mem_append.mp hx with hx' | hx'
            · exact List.mem_append_left _ hx'
            · have hx2 := List.mem_singleton.mp hx'
              subst hx2
              rw [List.map_cons]
              exact List.mem_append_right _ (List.mem_cons_self _ _)))
          hbound)
    obtain ⟨pre', post', hrun, hnd', hmem'⟩ :=
      ih (S ++ [rq.2]) p1 q1 hnd1 hmem1
        (fun r hr => hothers r (List.mem_cons_of_mem rq hr))
        (by rw [← hassoc]; exact hbound)
    refine ⟨pre', post', ?_, hnd', ?_⟩
    · show runGets rest ((getAggregatedData rq.1 (pre ++ (k, v) :: post) rq.2).2) = _
      rw [h1]
      exact hrun
    · intro x hx
      rw [hassoc]
      exact hmem' x hx

/-- Claim C10: rollup lookups are memoised in a process-wide LRU cache of
128 entries keyed by partition key, and a lookup finding no rollup caches
the empty result too.  After a lookup of `k` returns `v`, any sequence of
later lookups touching fewer than 128 distinct other keys leaves the entry
in place, and a following lookup of `k` — against an arbitrary, possibly
rewritten rollup store — still returns the memoised `v`, not the store's
current contents. -/
theorem c10_lru_cache_staleness_until_eviction (store store' : Store AggRollup)
    (cache : Cache) (k : String) (reqs : List (Store AggRollup × String))
    (hothers : ∀ r ∈ reqs, r.2 ≠ k)
    (hcount : (dedupKeepFirst (reqs.map (fun r => r.2))).length < cacheCapacity) :
    (getAggregatedData store'
        (runGets reqs (getAggregatedData store cache k).2) k).1 =
      (getAggregatedData store cache k).1
    ∧ ((∀ e ∈ cache, e.1 ≠ k) →
        (getAggregatedData store cache k).1 = store ("agg_" ++ k)) := by
  constructor
  · obtain ⟨rest, hrest⟩ := getAggregatedData_mru store cache k
    rw [hrest]
    obtain ⟨pre', post', hrun, hnd', hmem'⟩ :=
      lru_run k ((getAggregatedData store cache k).1) reqs [] [] rest
        (by simp) (by simp) hothers (by simpa using hcount)
    have hrun' : runGets reqs ((k, (getAggregatedData store cache k).1) :: rest) =
        pre' ++ (k, (getAggregatedData store cache k).1) :: post' := by
      simpa using hrun
    rw [hrun']
    have hget : getAggregatedData store'
        (pre' ++ (k, (getAggregatedData store cache k).1) :: post') k =
        match (pre' ++ (k, (getAggregatedData store cache k).1) :: post').find?
            (fun e => e.1 = k) with
        | some e => (e.2, (k, e.2) ::
            (pre' ++ (k, (getAggregatedData store cache k).1) :: post').eraseP
              (fun e => e.1 = k))
        | none => (store' ("agg_" ++ k),
            ((k, store' ("agg_" ++ k)) ::
              (pre' ++ (k, (getAggregatedData store cache k).1) :: post')).take
                cacheCapacity) := rfl
    rw [hget, find?_key_decomp k _ pre' post' (fun e he => by
      have := hmem' e he
      simp only [List.nil_append] at this
      obtain ⟨r, _, hr⟩ := List.mem_map.mp this
      exact hr ▸ hothers r (by assumption))]
  · intro hnot
    have hfind : cache.find? (fun e => e.1 = k) = none :=
      List.find?_eq_none.mpr (fun x hx => by simp [hnot x hx])
    have hget : getAggregatedData store cache k =
        match cache.find? (fun e => e.1 = k) with
        | some e => (e.2, (k, e.2) :: cache.eraseP (fun e => e.1 = k))
        | none => (store ("agg_" ++ k),
            ((k, store ("agg_" ++ k)) :: cache).take cacheCapacity) := rfl
    rw [hget, hfind]

/-- Witness for C9 at the spec's own example. -/
theorem c9_optimize_aggregations_dedup_stable_priority_sort_witness :
    optimizeAggregations ["avg_cpu", "count_pid", "sum_mem"] =
      ["count_pid", "sum_mem", "avg_cpu"] :=
  (c9_optimize_aggregations_dedup_stable_priority_sort ["avg_cpu", "count_pid", "sum_mem"]).1

/-- Witness for C10 at a concrete run: key `"k1"` is looked up (caching the
rollup found in the store of that moment), two other keys are then looked
up, and a final lookup of `"k1"` against an EMPTIED store still returns the
memoised rollup. -/
theorem c10_lru_cache_staleness_until_eviction_witness :
    (getAggregatedData kvEmpty
        (runGets [(kvEmpty, "a"), (kvEmpty, "b")]
          (getAggregatedData (kvSet kvEmpty "agg_k1" ⟨1, 2, 1, [("a", 1)], [("a", 2)]⟩)
            [] "k1").2) "k1").1 =
      (getAggregatedData (kvSet kvEmpty "agg_k1" ⟨1, 2, 1, [("a", 1)], [("a", 2)]⟩)
        [] "k1").1
    ∧ ((∀ e ∈ ([] : Cache), e.1 ≠ "k1") →
        (getAggregatedData (kvSet kvEmpty "agg_k1" ⟨1, 2, 1, [("a", 1)], [("a", 2)]⟩)
          [] "k1").1 =
        (kvSet kvEmpty "agg_k1" ⟨1, 2, 1, [("a", 1)], [("a", 2)]⟩) ("agg_" ++ "k1")) :=
  c10_lru_cache_staleness_until_eviction
    (kvSet kvEmpty "agg_k1" ⟨1, 2, 1, [("a", 1)], [("a", 2)]⟩) kvEmpty [] "k1"
    [(kvEmpty, "a"), (kvEmpty, "b")] (by decide) (by decide)

end SPA
